import Mathlib

/-!
Shallow embedding of the `hyprspace` terminal launcher (Rust sources:
`src/workspace.rs`, `src/tui.rs`, `src/launcher.rs`, `src/main.rs`).

Rust strings are modelled as `List Char` (`RStr`); file reads that may
fail are modelled as `Option RStr` inputs.  Machine integers appear only
in `u32` parsing, modelled as `Nat` with an explicit `< 2^32` bound.
-/

namespace Hyprspace

/-- Rust `&str` / `String`, modelled as a list of characters. -/
abbrev RStr := List Char

/-! ## String primitives (Rust `str` methods, ASCII-faithful) -/

/-- Leading-whitespace removal, one side of Rust `str::trim`.
`Char.isWhitespace` covers the ASCII subset of Rust `char::is_whitespace`;
all inputs relevant to this repository are ASCII. -/
def trimLeft : RStr → RStr
  | [] => []
  | c :: cs => if c.isWhitespace then trimLeft cs else c :: cs

/-- Rust `str::trim`: strip whitespace from both ends. -/
def trim (s : RStr) : RStr :=
  ((trimLeft s).reverse |> trimLeft).reverse

/-- Accumulator for `splitWS`. -/
def splitWSAux : RStr → RStr → List RStr
  | acc, [] => if acc.isEmpty then [] else [acc.reverse]
  | acc, c :: cs =>
    if c.isWhitespace then
      if acc.isEmpty then splitWSAux [] cs
      else acc.reverse :: splitWSAux [] cs
    else splitWSAux (c :: acc) cs

/-- Rust `str::split_whitespace`: whitespace-separated words, empties dropped. -/
def splitWS (s : RStr) : List RStr := splitWSAux [] s

/-- Splitting a text at newline characters (`str::split('\n')` shape):
always returns one more piece than the number of newline characters. -/
def splitNL : RStr → List RStr
  | [] => [[]]
  | c :: cs =>
    if c = '\n' then [] :: splitNL cs
    else
      match splitNL cs with
      | l :: ls => (c :: l) :: ls
      | [] => [[c]]

/-- Strip one trailing carriage return, as Rust `str::lines` does per line. -/
def stripCR (l : RStr) : RStr :=
  match l.reverse with
  | '\r' :: rest => rest.reverse
  | _ => l

/-- Rust `str::lines`: split at `'\n'`, drop a final empty piece produced by a
trailing newline, strip one trailing `'\r'` from each line. -/
def rustLines (s : RStr) : List RStr :=
  let ps := splitNL s
  (if ps.getLast? = some [] then ps.dropLast else ps).map stripCR

/-! ## `u32` parsing (Rust `str::parse::<u32>`) -/

/-- Numeric value of a decimal digit list (most significant first). -/
def digitsVal (ds : RStr) : Nat :=
  ds.foldl (fun a c => a * 10 + (c.toNat - 48)) 0

/-- Rust `"s".parse::<u32>()`: optional leading `'+'`, then one or more ASCII
digits, value below `2^32`; a leading `'-'` or any other character fails. -/
def parseU32 (s : RStr) : Option Nat :=
  match s with
  | [] => none
  | c :: rest =>
    let ds := if c = '+' then rest else c :: rest
    if c = '-' then none
    else if ds.isEmpty then none
    else if ds.all Char.isDigit then
      if digitsVal ds < 4294967296 then some (digitsVal ds) else none
    else none

/-! ## `parse_workspace_num` (src/workspace.rs, lines 45-69) -/

/-- The literal scanned for by `parse_workspace_num`. -/
def dirPat : RStr := "hyprctl dispatch workspace".data

/-- The `for line in content.lines()` loop body of `parse_workspace_num`:
skip blank and `#`-first lines; on a line whose trimmed content starts with
`dirPat`, parse the last whitespace token as `u32` and return it on success;
otherwise continue with the remaining lines. -/
def scan : List RStr → Option Nat
  | [] => none
  | l :: ls =>
    let t := trim l
    if t.isEmpty then scan ls
    else if ['#'].isPrefixOf t then scan ls
    else if dirPat.isPrefixOf t then
      match (splitWS t).getLast? with
      | some last =>
        match parseU32 last with
        | some n => some n
        | none => scan ls
      | none => scan ls
    else scan ls

/-- `parse_workspace_num`: `fs::read_to_string(path).ok()?` is modelled by the
`Option RStr` argument (`none` = unreadable file). -/
def parse_workspace_num (content : Option RStr) : Option Nat :=
  match content with
  | none => none
  | some text => scan (rustLines text)

example : parse_workspace_num (some "hyprctl dispatch workspace 3".data) = some 3 := rfl
example : parse_workspace_num (some "  hyprctl dispatch workspace 3  ".data) = some 3 := rfl
example : parse_workspace_num (some "# hyprctl dispatch workspace 9".data) = none := rfl
example : parse_workspace_num (some "hyprctl dispatch workspaces 7".data) = some 7 := rfl
example : parse_workspace_num (some "hyprctl  dispatch workspace 3".data) = none := rfl
example :
    parse_workspace_num (some "#!/bin/bash\n\nhyprctl dispatch workspace abc\nhyprctl dispatch workspace 5\n".data)
      = some 5 := rfl
example : parse_workspace_num (some "hyprctl dispatch workspace 4294967296".data) = none := rfl
example : parse_workspace_num (some "hyprctl dispatch workspace -1".data) = none := rfl

/-! ## Entry names (src/workspace.rs, `list_workspaces`, lines 72-120) -/

/-- Rust `str::trim_end_matches(pat)` repeatedly removes the suffix `pat`;
the fuel argument bounds the number of removals (each removal shortens the
string by at least one character, so `s.length` removals always suffice). -/
def trimEndFuel (pat : RStr) : Nat → RStr → RStr
  | 0, s => s
  | fuel + 1, s =>
    if pat.isSuffixOf s ∧ ¬pat.isEmpty then
      trimEndFuel pat fuel (s.take (s.length - pat.length))
    else s

/-- Rust `str::trim_end_matches`. -/
def trim_end_matches (pat s : RStr) : RStr := trimEndFuel pat s.length s

/-- Rust `str::strip_prefix` followed by `unwrap_or`. -/
def stripPre (pre s : RStr) : RStr :=
  if pre.isPrefixOf s then s.drop pre.length else s

/-- The qualification filter of `list_workspaces`:
`file_name.starts_with("workspace-") && file_name.ends_with(".sh")`. -/
def qualifies (file_name : RStr) : Bool :=
  "workspace-".data.isPrefixOf file_name && ".sh".data.isSuffixOf file_name

/-- `name_short` derivation in `list_workspaces` (src/workspace.rs 98-99):
`let no_ext = file_name.trim_end_matches(".sh");`
`let short = no_ext.strip_prefix("workspace-").unwrap_or(no_ext);` -/
def shortName (file_name : RStr) : RStr :=
  let no_ext := trim_end_matches ".sh".data file_name
  stripPre "workspace-".data no_ext

example : shortName "workspace-backend.sh".data = "backend".data := rfl
example : shortName "workspace-a.sh.sh".data = "a".data := rfl

/-! ## Data model (src/workspace.rs, `WorkspaceEntry`) -/

/-- One discovered workspace script. -/
structure WorkspaceEntry where
  name_short : RStr
  base_name : RStr
  full_path : RStr
  workspace_num : Option Nat

/-! ## TUI selection state machine (src/tui.rs) -/

/-- What the user chose in the TUI (`enum Action`). -/
inductive Action where
  | launch (idx : Nat)
  | createNew

/-- The crossterm key codes the event loop distinguishes. -/
inductive KeyCode where
  | char (c : Char)
  | down
  | up
  | enter
  | esc
  | other

/-- A crossterm event: a key event, or any other event kind. -/
inductive TermEvent where
  | key (k : KeyCode)
  | nonKey

/-- One iteration of the `run_tui` polling loop, as seen from outside:
either one of the three fallible calls (`terminal.draw`, `event::poll`,
`event::read`) fails, or the poll times out, or an event is delivered. -/
inductive LoopInput where
  | drawErr
  | pollErr
  | timeout
  | readErr
  | event (e : TermEvent)

/-- Terminal mode, the shared resource of §5 of the spec. -/
structure TermState where
  rawMode : Bool
  altScreen : Bool
  cursorVisible : Bool

/-- Application state for the TUI (`struct App`). -/
structure App where
  workspaces : List WorkspaceEntry
  selected : Nat
  action : Option Action

/-- `App::new`. -/
def App.new (workspaces : List WorkspaceEntry) : App :=
  { workspaces := workspaces, selected := 0, action := none }

/-- `App::total_items`: all workspaces + 1 extra item for "Create new...". -/
def App.total_items (a : App) : Nat := a.workspaces.length + 1

/-- `App::next`. -/
def App.next (a : App) : App :=
  let total := a.total_items
  if total = 0 then a
  else { a with selected := (a.selected + 1) % total }

/-- `App::previous`. -/
def App.previous (a : App) : App :=
  let total := a.total_items
  if total = 0 then a
  else if a.selected = 0 then { a with selected := total - 1 }
  else { a with selected := a.selected - 1 }

/-- The `match key_event.code` arms of the loop (src/tui.rs 139-161).
Returns the updated app and whether the arm executed `break`. -/
def App.onKey (a : App) (k : KeyCode) : App × Bool :=
  match k with
  | .char c =>
    if c = 'q' then ({ a with action := none }, true)
    else if c = 'j' then (a.next, false)
    else if c = 'k' then (a.previous, false)
    else (a, false)
  | .esc => ({ a with action := none }, true)
  | .down => (a.next, false)
  | .up => (a.previous, false)
  | .enter =>
    if a.selected < a.workspaces.length then
      ({ a with action := some (Action.launch a.selected) }, true)
    else
      ({ a with action := some Action.createNew }, true)
  | .other => (a, false)

/-- How the `loop` in `run_tui` ended. -/
inductive LoopResult where
  | finished (a : App)
  | ioError
  | ranOut (a : App)

/-- The `loop` of `run_tui`: draw (a successful draw hides the cursor),
poll, read, dispatch on the key.  An `Err` from any of the three fallible
calls is propagated by `?` immediately, with the terminal state as it is at
that moment.  `ranOut` is the model artifact for an exhausted input list
(the real loop would keep polling). -/
def runLoop : App → TermState → List LoopInput → TermState × LoopResult
  | a, ts, [] => (ts, .ranOut a)
  | _, ts, .drawErr :: _ => (ts, .ioError)
  | _, ts, .pollErr :: _ => ({ ts with cursorVisible := false }, .ioError)
  | a, ts, .timeout :: rest => runLoop a { ts with cursorVisible := false } rest
  | _, ts, .readErr :: _ => ({ ts with cursorVisible := false }, .ioError)
  | a, ts, .event .nonKey :: rest => runLoop a { ts with cursorVisible := false } rest
  | a, ts, .event (.key k) :: rest =>
    let ts' : TermState := { ts with cursorVisible := false }
    let step := a.onKey k
    if step.2 then (ts', .finished step.1) else runLoop step.1 ts' rest

/-- Result of `run_tui` as seen by the caller. -/
inductive TuiResult where
  | ok (entries : List WorkspaceEntry) (action : Option Action)
  | ioError
  | stillRunning

/-- `run_tui` (src/tui.rs 123-170): enable raw mode and enter the alternate
screen, run the loop, and only on a normal `break` disable raw mode, leave
the alternate screen and show the cursor; an `Err` from inside the loop is
returned with no restoration (`?` early return). -/
def run_tui (workspaces : List WorkspaceEntry) (inputs : List LoopInput)
    (ts0 : TermState) : TermState × TuiResult :=
  let a := App.new workspaces
  let tsUI : TermState := { ts0 with rawMode := true, altScreen := true }
  match runLoop a tsUI inputs with
  | (ts, .finished a') =>
    ({ ts with rawMode := false, altScreen := false, cursorVisible := true },
     .ok a'.workspaces a'.action)
  | (ts, .ioError) => (ts, .ioError)
  | (ts, .ranOut _) => (ts, .stillRunning)

/-! ## Launcher (src/launcher.rs, `launch_script`) -/

/-- An OS error, abstract. -/
structure IoErr where
  code : Nat

/-- A child's exit status (may be nonzero). -/
structure ExitStatus where
  status : Int

/-- How the environment behaves when `launch_script` runs: either the spawn
of `full_path` fails, or a child exists and waiting on it gives `wait`. -/
inductive SpawnOutcome where
  | fail (e : IoErr)
  | child (wait : Except IoErr ExitStatus)

/-- `launch_script`: `Command::new(full_path)...spawn()?`, then
`let _ = child.wait();`, then `Ok(())` — the wait result is discarded. -/
def launch_script (o : SpawnOutcome) : Except IoErr Unit :=
  match o with
  | .fail e => .error e
  | .child _ => .ok ()

/-! ## Helper lemmas about the TUI state machine -/

/-- The invariant maintained by the selection loop: the cursor stays inside
the virtual list, and any resolved launch index points at a real entry. -/
def AppInv (a : App) : Prop :=
  a.selected < a.total_items ∧
  ∀ i, a.action = some (Action.launch i) → i < a.workspaces.length

theorem App.next_workspaces (a : App) : a.next.workspaces = a.workspaces := by
  simp only [App.next]
  split <;> rfl

theorem App.previous_workspaces (a : App) : a.previous.workspaces = a.workspaces := by
  simp only [App.previous]
  split
  · rfl
  · split <;> rfl

theorem App.next_action (a : App) : a.next.action = a.action := by
  simp only [App.next]
  split <;> rfl

theorem App.previous_action (a : App) : a.previous.action = a.action := by
  simp only [App.previous]
  split
  · rfl
  · split <;> rfl

theorem App.next_selected (a : App) :
    a.next.selected = (a.selected + 1) % a.total_items := by
  have h : a.total_items ≠ 0 := Nat.succ_ne_zero _
  simp only [App.next, h, if_false]

theorem App.previous_selected (a : App) :
    a.previous.selected = if a.selected = 0 then a.total_items - 1 else a.selected - 1 := by
  have h : a.total_items ≠ 0 := Nat.succ_ne_zero _
  simp only [App.previous, h, if_false]
  split <;> rfl

theorem App.total_items_pos (a : App) : 0 < a.total_items := Nat.succ_pos _

theorem App.next_total (a : App) : a.next.total_items = a.total_items := by
  simp only [App.total_items, App.next_workspaces]

theorem App.previous_total (a : App) : a.previous.total_items = a.total_items := by
  simp only [App.total_items, App.previous_workspaces]

theorem AppInv.quit (a : App) (h : AppInv a) :
    AppInv { a with action := none } :=
  ⟨h.1, fun _ hi => Option.noConfusion hi⟩

theorem AppInv.next (a : App) (h : AppInv a) : AppInv a.next := by
  refine ⟨?_, ?_⟩
  · rw [App.next_total, App.next_selected]
    exact Nat.mod_lt _ a.total_items_pos
  · intro i hi
    rw [App.next_workspaces]
    exact h.2 i (a.next_action ▸ hi)

theorem AppInv.previous (a : App) (h : AppInv a) : AppInv a.previous := by
  refine ⟨?_, ?_⟩
  · rw [App.previous_total, App.previous_selected]
    have h1 := a.total_items_pos
    have h2 := h.1
    split <;> omega
  · intro i hi
    rw [App.previous_workspaces]
    exact h.2 i (a.previous_action ▸ hi)

theorem App.onKey_inv (a : App) (k : KeyCode) (h : AppInv a) :
    AppInv (a.onKey k).1 ∧ ((a.onKey k).1).workspaces = a.workspaces := by
  cases k with
  | char c =>
    simp only [App.onKey]
    by_cases h1 : c = 'q'
    · rw [if_pos h1]
      exact ⟨AppInv.quit a h, rfl⟩
    · rw [if_neg h1]
      by_cases h2 : c = 'j'
      · rw [if_pos h2]
        exact ⟨AppInv.next a h, a.next_workspaces⟩
      · rw [if_neg h2]
        by_cases h3 : c = 'k'
        · rw [if_pos h3]
          exact ⟨AppInv.previous a h, a.previous_workspaces⟩
        · rw [if_neg h3]
          exact ⟨h, rfl⟩
  | esc => exact ⟨AppInv.quit a h, rfl⟩
  | down => exact ⟨AppInv.next a h, a.next_workspaces⟩
  | up => exact ⟨AppInv.previous a h, a.previous_workspaces⟩
  | enter =>
    simp only [App.onKey]
    by_cases h1 : a.selected < a.workspaces.length
    · rw [if_pos h1]
      refine ⟨⟨h.1, ?_⟩, rfl⟩
      intro i hi
      injection Option.some.inj hi with h4
      show i < a.workspaces.length
      omega
    · rw [if_neg h1]
      refine ⟨⟨h.1, ?_⟩, rfl⟩
      intro i hi
      injection Option.some.inj hi
  | other => exact ⟨h, rfl⟩

theorem runLoop_inv (inputs : List LoopInput) :
    ∀ (a : App) (ts : TermState), AppInv a →
      (∀ ts' a', runLoop a ts inputs = (ts', LoopResult.ranOut a') →
        a'.workspaces = a.workspaces ∧ AppInv a') ∧
      (∀ ts' a', runLoop a ts inputs = (ts', LoopResult.finished a') →
        a'.workspaces = a.workspaces ∧ AppInv a') := by
  induction inputs with
  | nil =>
    intro a ts h
    refine ⟨?_, ?_⟩
    · intro ts' a' he
      simp only [runLoop] at he
      simp at he
      obtain ⟨h1, h2⟩ := he
      subst h2
      exact ⟨rfl, h⟩
    · intro ts' a' he
      simp only [runLoop] at he
      simp at he
  | cons i rest ih =>
    intro a ts h
    cases i with
    | drawErr =>
      refine ⟨?_, ?_⟩ <;>
        · intro ts' a' he
          simp only [runLoop] at he
          simp at he
    | pollErr =>
      refine ⟨?_, ?_⟩ <;>
        · intro ts' a' he
          simp only [runLoop] at he
          simp at he
    | readErr =>
      refine ⟨?_, ?_⟩ <;>
        · intro ts' a' he
          simp only [runLoop] at he
          simp at he
    | timeout =>
      refine ⟨?_, ?_⟩ <;>
        · intro ts' a' he
          simp only [runLoop] at he
          first
          | exact (ih a _ h).1 ts' a' he
          | exact (ih a _ h).2 ts' a' he
    | event e =>
      cases e with
      | nonKey =>
        refine ⟨?_, ?_⟩ <;>
          · intro ts' a' he
            simp only [runLoop] at he
            first
            | exact (ih a _ h).1 ts' a' he
            | exact (ih a _ h).2 ts' a' he
      | key k =>
        obtain ⟨hinv, hws⟩ := a.onKey_inv k h
        rcases hk : a.onKey k with ⟨a2, brk⟩
        rw [hk] at hinv hws
        refine ⟨?_, ?_⟩
        · intro ts' a' he
          simp only [runLoop, hk] at he
          cases brk with
          | true => simp at he
          | false =>
            simp only [if_neg Bool.false_ne_true] at he
            have hr := (ih a2 _ hinv).1 ts' a' he
            exact ⟨hr.1.trans hws, hr.2⟩
        · intro ts' a' he
          simp only [runLoop, hk] at he
          cases brk with
          | true =>
            simp only [if_pos rfl] at he
            simp at he
            obtain ⟨h1, h2⟩ := he
            subst h2
            exact ⟨hws, hinv⟩
          | false =>
            simp only [if_neg Bool.false_ne_true] at he
            have hr := (ih a2 _ hinv).2 ts' a' he
            exact ⟨hr.1.trans hws, hr.2⟩

/-- A concrete entry used by the witness instantiations. -/
def sampleEntry : WorkspaceEntry :=
  ⟨"backend".data, "workspace-backend.sh".data, "workspace-backend.sh".data, some 2⟩

/-! ## Claim theorems: selection UI and terminal handoff -/

/-- C1: the claim says the terminal is restored (raw mode off, alternate
screen left, cursor visible) on every exit path of `run_tui`, including
error paths.  The code restores only after a normal `break`: an `Err` from
`event::poll` inside the loop is propagated by `?` with raw mode and the
alternate screen still active.  This theorem evaluates the model at that
failing input, and contrasts it with a quit exit, which does restore. -/
theorem c1_error_exit_skips_terminal_restore :
    run_tui [] [LoopInput.pollErr] ⟨false, false, true⟩
      = (⟨true, true, false⟩, TuiResult.ioError) ∧
    (run_tui [] [LoopInput.pollErr] ⟨false, false, true⟩).1.rawMode = true ∧
    (run_tui [] [LoopInput.pollErr] ⟨false, false, true⟩).1.altScreen = true ∧
    run_tui [] [LoopInput.event (.key .esc)] ⟨false, false, true⟩
      = (⟨false, false, true⟩, TuiResult.ok [] none) :=
  ⟨rfl, rfl, rfl, rfl⟩

/-- C2: with `n` entries and cursor `c ≤ n`, pressing Enter ends the session
with action `Launch c` when `c < n` and `CreateNew` when `c = n` (for every
`n`, including `n = 0`). -/
theorem c2_confirm_resolves (ws : List WorkspaceEntry) (c : Nat)
    (h : c ≤ ws.length) (rest : List LoopInput) (ts : TermState) :
    runLoop ⟨ws, c, none⟩ ts (LoopInput.event (.key .enter) :: rest)
      = ({ ts with cursorVisible := false },
         LoopResult.finished ⟨ws, c,
           some (if c < ws.length then Action.launch c else Action.createNew)⟩) ∧
    (c = ws.length →
      runLoop ⟨ws, c, none⟩ ts (LoopInput.event (.key .enter) :: rest)
        = ({ ts with cursorVisible := false },
           LoopResult.finished ⟨ws, c, some Action.createNew⟩)) := by
  have key : (⟨ws, c, none⟩ : App).onKey .enter
      = (⟨ws, c, some (if c < ws.length then Action.launch c else Action.createNew)⟩,
         true) := by
    by_cases hc : c < ws.length
    · simp [App.onKey, hc]
    · simp [App.onKey, hc]
  refine ⟨?_, ?_⟩
  · simp [runLoop, key]
  · intro hceq
    have hnc : ¬ c < ws.length := by omega
    simp [runLoop, key, hnc]

/-- C2 witness: zero entries, cursor 0 (the synthetic item): Enter resolves
to `CreateNew`. -/
theorem c2_confirm_resolves_witness :
    runLoop ⟨[], 0, none⟩ ⟨true, true, true⟩ [LoopInput.event (.key .enter)]
      = (⟨true, true, false⟩, LoopResult.finished ⟨[], 0, some Action.createNew⟩) :=
  (c2_confirm_resolves [] 0 (Nat.le_refl 0) [] ⟨true, true, true⟩).2 rfl

/-- C3: move-down sets the cursor to `(c + 1) mod (n + 1)`, move-up sets it
to `n` when `c = 0` and to `c - 1` otherwise; with 3 entries, four downs
from 0 return to 0 and one up from 0 gives 3. -/
theorem c3_navigation (ws : List WorkspaceEntry) (c : Nat) (act : Option Action)
    (h : c ≤ ws.length) :
    (App.next ⟨ws, c, act⟩).selected = (c + 1) % (ws.length + 1) ∧
    (App.previous ⟨ws, c, act⟩).selected = (if c = 0 then ws.length else c - 1) ∧
    (ws.length = 3 →
      ((App.new ws).next.next.next.next).selected = 0 ∧
      ((App.new ws).previous).selected = 3) := by
  refine ⟨?_, ?_, ?_⟩
  · rw [App.next_selected]; rfl
  · rw [App.previous_selected]
    simp [App.total_items]
  · intro h3
    constructor
    · simp [App.new, App.next, App.total_items, h3]
    · simp [App.new, App.previous, App.total_items, h3]

/-- C3 witness: three concrete entries. -/
theorem c3_navigation_witness :
    ((App.new [sampleEntry, sampleEntry, sampleEntry]).next.next.next.next).selected = 0 ∧
    ((App.new [sampleEntry, sampleEntry, sampleEntry]).previous).selected = 3 :=
  (c3_navigation [sampleEntry, sampleEntry, sampleEntry] 0 none (Nat.zero_le _)).2.2 rfl

/-- C4: from the initial state (cursor 0), after any input sequence the
cursor satisfies `cursor < entries.length + 1` (both while running and at
termination), and any resolved `Launch i` has `i < entries.length`, so the
orchestrator's `workspaces.get(i)` lookup succeeds. -/
theorem c4_cursor_invariant (ws : List WorkspaceEntry) (ts : TermState)
    (inputs : List LoopInput) :
    (∀ ts' a', runLoop (App.new ws) ts inputs = (ts', LoopResult.ranOut a') →
      a'.workspaces = ws ∧ a'.selected < ws.length + 1) ∧
    (∀ ts' a', runLoop (App.new ws) ts inputs = (ts', LoopResult.finished a') →
      a'.workspaces = ws ∧ a'.selected < ws.length + 1 ∧
      (∀ i, a'.action = some (Action.launch i) →
        i < ws.length ∧ (ws[i]?).isSome = true)) := by
  have h0 : AppInv (App.new ws) := ⟨Nat.succ_pos _, fun _ hi => Option.noConfusion hi⟩
  have hmain := runLoop_inv inputs (App.new ws) ts h0
  refine ⟨?_, ?_⟩
  · intro ts' a' he
    obtain ⟨hws, hinv⟩ := hmain.1 ts' a' he
    refine ⟨hws, ?_⟩
    have hs := hinv.1
    rw [App.total_items, hws] at hs
    exact hs
  · intro ts' a' he
    obtain ⟨hws, hinv⟩ := hmain.2 ts' a' he
    refine ⟨hws, ?_, ?_⟩
    · have hs := hinv.1
      rw [App.total_items, hws] at hs
      exact hs
    · intro i hi
      have hlt0 := hinv.2 i hi
      rw [hws] at hlt0
      have hlt : i < ws.length := hlt0
      exact ⟨hlt, by rw [List.getElem?_eq_getElem hlt]; rfl⟩

/-- C4 witness: one entry, immediate confirm at cursor 0 resolves
`Launch 0`, and the lookup at index 0 finds the entry. -/
theorem c4_cursor_invariant_witness :
    0 < [sampleEntry].length ∧ (([sampleEntry][0]?).isSome = true) :=
  ((c4_cursor_invariant [sampleEntry] ⟨true, true, true⟩
      [LoopInput.event (.key .enter)]).2 ⟨true, true, false⟩
      ⟨[sampleEntry], 0, some (Action.launch 0)⟩ rfl).2.2 0 rfl

/-- C9: `run_tui` returns the entry list it was given, unchanged, whenever
it returns normally; and a quit key (`q` or `Esc`) ends the session, at any
cursor position, with action `none`. -/
theorem c9_entries_unchanged_and_quit_none (ws : List WorkspaceEntry)
    (inputs : List LoopInput) (ts0 : TermState) :
    (∀ ts' es act, run_tui ws inputs ts0 = (ts', TuiResult.ok es act) → es = ws) ∧
    (∀ (a : App) (ts : TermState) (k : KeyCode) (rest : List LoopInput),
      k = KeyCode.char 'q' ∨ k = KeyCode.esc →
      runLoop a ts (LoopInput.event (.key k) :: rest)
        = ({ ts with cursorVisible := false },
           LoopResult.finished ⟨a.workspaces, a.selected, none⟩)) := by
  refine ⟨?_, ?_⟩
  · intro ts' es act he
    have h0 : AppInv (App.new ws) := ⟨Nat.succ_pos _, fun _ hi => Option.noConfusion hi⟩
    simp only [run_tui] at he
    rcases hr : runLoop (App.new ws) { ts0 with rawMode := true, altScreen := true }
        inputs with ⟨ts2, r⟩
    rw [hr] at he
    cases r with
    | finished a' =>
      simp at he
      have hws := ((runLoop_inv inputs (App.new ws) _ h0).2 ts2 a' hr).1
      rw [← he.2.1]
      exact hws
    | ioError => simp at he
    | ranOut a2 => simp at he
  · intro a ts k rest hk
    rcases hk with hk | hk <;> subst hk <;> simp [runLoop, App.onKey]

/-- C9 witness: quitting with Esc at cursor 1 of a one-entry list yields
action `none` and the same entries. -/
theorem c9_entries_unchanged_and_quit_none_witness :
    runLoop ⟨[sampleEntry], 1, none⟩ ⟨true, true, true⟩ [LoopInput.event (.key .esc)]
      = (⟨true, true, false⟩, LoopResult.finished ⟨[sampleEntry], 1, none⟩) :=
  (c9_entries_unchanged_and_quit_none [sampleEntry] [] ⟨false, false, true⟩).2
    ⟨[sampleEntry], 1, none⟩ ⟨true, true, true⟩ KeyCode.esc [] (Or.inr rfl)

/-! ## Claim theorems: launcher -/

/-- C8: `launch_script` fails exactly when the spawn fails; once a child is
spawned the call returns success, whatever the wait produced — a nonzero
exit status never makes the operation fail. -/
theorem c8_launch_error_iff_spawn_fails (e : IoErr) (w : Except IoErr ExitStatus) :
    launch_script (SpawnOutcome.fail e) = Except.error e ∧
    launch_script (SpawnOutcome.child w) = Except.ok () ∧
    (∀ o : SpawnOutcome, (∃ err, launch_script o = Except.error err) ↔
      ∃ err, o = SpawnOutcome.fail err) := by
  refine ⟨rfl, rfl, ?_⟩
  intro o
  cases o with
  | fail e2 => exact ⟨fun _ => ⟨e2, rfl⟩, fun _ => ⟨e2, rfl⟩⟩
  | child w2 =>
    constructor
    · rintro ⟨err, herr⟩
      simp [launch_script] at herr
    · rintro ⟨err, herr⟩
      cases herr

/-- C8 witness: a spawned child exiting with status 1 still yields success;
a failed spawn yields that error. -/
theorem c8_launch_error_iff_spawn_fails_witness :
    launch_script (SpawnOutcome.fail ⟨3⟩) = Except.error ⟨3⟩ ∧
    launch_script (SpawnOutcome.child (Except.ok ⟨1⟩)) = Except.ok () :=
  ⟨(c8_launch_error_iff_spawn_fails ⟨3⟩ (Except.ok ⟨1⟩)).1,
   (c8_launch_error_iff_spawn_fails ⟨3⟩ (Except.ok ⟨1⟩)).2.1⟩

/-! ## Helper lemmas about the script scanner -/

theorem hash_prefix_nonempty (t : RStr) (h : (['#'].isPrefixOf t) = true) :
    t.isEmpty = false := by
  cases t with
  | nil => exact absurd h (by simp)
  | cons c cs => rfl

theorem dirPat_prefix_facts (t : RStr) (h : dirPat.isPrefixOf t = true) :
    t.isEmpty = false ∧ (['#'].isPrefixOf t) = false := by
  cases t with
  | nil =>
    rw [show dirPat = 'h' :: "yprctl dispatch workspace".data from rfl] at h
    exact absurd h (by simp)
  | cons c cs =>
    refine ⟨rfl, ?_⟩
    rw [show dirPat = 'h' :: "yprctl dispatch workspace".data from rfl,
      List.isPrefixOf_cons₂] at h
    have hc : ('h' == c) = true := ((Bool.and_eq_true _ _).mp h).1
    have hceq : c = 'h' := (beq_iff_eq.mp hc).symm
    subst hceq
    rw [List.isPrefixOf_cons₂, show (('#' : Char) == 'h') = false from rfl,
      Bool.false_and]

theorem scan_cons_dir_some (l : RStr) (ls : List RStr) (n : Nat)
    (hd : dirPat.isPrefixOf (trim l) = true)
    (hbind : ((splitWS (trim l)).getLast?).bind parseU32 = some n) :
    scan (l :: ls) = some n := by
  obtain ⟨hne, hcm⟩ := dirPat_prefix_facts (trim l) hd
  rcases hlast : (splitWS (trim l)).getLast? with _ | last
  · rw [hlast] at hbind
    exact absurd hbind (by simp)
  · rw [hlast] at hbind
    have hp : parseU32 last = some n := by simpa using hbind
    simp [scan, hne, hcm, hd, hlast, hp]

theorem scan_cons_dir_none (l : RStr) (ls : List RStr)
    (hd : dirPat.isPrefixOf (trim l) = true)
    (hbind : ((splitWS (trim l)).getLast?).bind parseU32 = none) :
    scan (l :: ls) = scan ls := by
  obtain ⟨hne, hcm⟩ := dirPat_prefix_facts (trim l) hd
  rcases hlast : (splitWS (trim l)).getLast? with _ | last
  · simp [scan, hne, hcm, hd, hlast]
  · rw [hlast] at hbind
    have hp : parseU32 last = none := by simpa using hbind
    simp [scan, hne, hcm, hd, hlast, hp]

theorem scan_cons_not_dir (l : RStr) (ls : List RStr)
    (hd : dirPat.isPrefixOf (trim l) = false) :
    scan (l :: ls) = scan ls := by
  cases h1 : (trim l).isEmpty with
  | true => simp [scan, h1]
  | false =>
    cases h2 : (['#'].isPrefixOf (trim l)) with
    | true => simp [scan, h1, h2]
    | false => simp [scan, h1, h2, hd]

theorem scan_none_of_no_yield (ls : List RStr)
    (h : ∀ l ∈ ls, dirPat.isPrefixOf (trim l) = true →
      ((splitWS (trim l)).getLast?).bind parseU32 = none) :
    scan ls = none := by
  induction ls with
  | nil => rfl
  | cons l ls2 ih =>
    have hstep : scan (l :: ls2) = scan ls2 := by
      cases hd : dirPat.isPrefixOf (trim l) with
      | false => exact scan_cons_not_dir l ls2 hd
      | true => exact scan_cons_dir_none l ls2 hd (h l (List.mem_cons_self l ls2) hd)
    rw [hstep]
    exact ih fun l2 hl2 => h l2 (List.mem_cons_of_mem l hl2)

/-! ## Claim theorems: workspace-number extraction -/

/-- C5: workspace-number extraction scans lines in order, skips blank lines
and lines whose first non-whitespace character is `#`, parses the last
whitespace token of a directive line as an unsigned integer, returns it on
success, continues the scan on parse failure, and yields `none` when no
directive line parses — including when the file is unreadable. -/
theorem c5_parse_workspace_scan :
    parse_workspace_num none = none ∧
    (∀ l ls, (trim l).isEmpty = true → scan (l :: ls) = scan ls) ∧
    (∀ l ls, (['#'].isPrefixOf (trim l)) = true → scan (l :: ls) = scan ls) ∧
    (∀ l ls n, dirPat.isPrefixOf (trim l) = true →
      ((splitWS (trim l)).getLast?).bind parseU32 = some n →
      scan (l :: ls) = some n) ∧
    (∀ l ls, dirPat.isPrefixOf (trim l) = true →
      ((splitWS (trim l)).getLast?).bind parseU32 = none →
      scan (l :: ls) = scan ls) ∧
    (∀ text, parse_workspace_num (some text) = scan (rustLines text)) ∧
    (∀ ls, (∀ l ∈ ls, dirPat.isPrefixOf (trim l) = true →
      ((splitWS (trim l)).getLast?).bind parseU32 = none) → scan ls = none) := by
  refine ⟨rfl, ?_, ?_, scan_cons_dir_some, scan_cons_dir_none, fun _ => rfl,
    scan_none_of_no_yield⟩
  · intro l ls h
    simp [scan, h]
  · intro l ls h
    simp [scan, h, hash_prefix_nonempty _ h]

/-- C5 witness: a commented-out directive is skipped, an unparseable
directive line is passed over, and a parseable one returns its number. -/
theorem c5_parse_workspace_scan_witness :
    parse_workspace_num none = none ∧
    scan ["# hyprctl dispatch workspace 9".data] = none ∧
    scan ["hyprctl dispatch workspace abc".data] = none ∧
    scan ["hyprctl dispatch workspace 3".data] = some 3 :=
  ⟨c5_parse_workspace_scan.1,
   (c5_parse_workspace_scan.2.2.1 "# hyprctl dispatch workspace 9".data [] rfl).trans rfl,
   (c5_parse_workspace_scan.2.2.2.2.1 "hyprctl dispatch workspace abc".data [] rfl
     rfl).trans rfl,
   c5_parse_workspace_scan.2.2.2.1 "hyprctl dispatch workspace 3".data [] 3 rfl rfl⟩

/-- C6 counterexample: the code tests a plain string prefix, not token
boundaries.  A line beginning `hyprctl dispatch workspaces` IS treated as a
directive (its trailing `7` is parsed and returned), and doubled whitespace
between the tokens defeats the match (the claim asserts the opposite on
both counts). -/
theorem c6_counterexample :
    parse_workspace_num (some "hyprctl dispatch workspaces 7".data) = some 7 ∧
    parse_workspace_num (some "hyprctl  dispatch workspace 3".data) = none :=
  ⟨rfl, rfl⟩

/-- C6 amended: a line is treated as a dispatch directive exactly when its
trimmed content begins with the literal character string
`hyprctl dispatch workspace` (plain string prefix, not a token-boundary
match); in particular a trimmed line beginning `hyprctl dispatch
workspaces` is a directive, while extra whitespace between the three words
prevents the match. -/
theorem c6_amended_directive_is_plain_string_match (l : RStr) (ls : List RStr) :
    (scan (l :: ls) =
      if dirPat.isPrefixOf (trim l) = true then
        match ((splitWS (trim l)).getLast?).bind parseU32 with
        | some n => some n
        | none => scan ls
      else scan ls) ∧
    dirPat.isPrefixOf (trim "hyprctl dispatch workspaces 7".data) = true ∧
    dirPat.isPrefixOf (trim "hyprctl  dispatch workspace 3".data) = false := by
  refine ⟨?_, rfl, rfl⟩
  cases hd : dirPat.isPrefixOf (trim l) with
  | false =>
    rw [if_neg (by simp [hd])]
    exact scan_cons_not_dir l ls hd
  | true =>
    rw [if_pos rfl]
    rcases hb : ((splitWS (trim l)).getLast?).bind parseU32 with _ | n
    · exact scan_cons_dir_none l ls hd hb
    · exact scan_cons_dir_some l ls n hd hb

/-- C10: the workspace number is parsed as a 32-bit unsigned integer: a
digit string whose value exceeds `4294967295` fails to parse, a negative
numeral fails to parse, any successfully parsed value is below `2^32`, a
directive line whose last token fails to parse lets the scan continue, and
the result is `none` when no line yields a parseable integer. -/
theorem c10_u32_bounds (ds : RStr) (l : RStr) (ls : List RStr) :
    (ds ≠ [] → ds.all Char.isDigit = true → 4294967295 < digitsVal ds →
      parseU32 ds = none) ∧
    (∀ n, parseU32 ds = some n → n < 4294967296) ∧
    parseU32 ('-' :: ds) = none ∧
    (dirPat.isPrefixOf (trim l) = true →
      ((splitWS (trim l)).getLast?).bind parseU32 = none →
      scan (l :: ls) = scan ls) ∧
    (∀ ls2, (∀ l2 ∈ ls2, dirPat.isPrefixOf (trim l2) = true →
      ((splitWS (trim l2)).getLast?).bind parseU32 = none) → scan ls2 = none) := by
  refine ⟨?_, ?_, ?_, scan_cons_dir_none l ls, scan_none_of_no_yield⟩
  · intro hne hdig hbig
    cases ds with
    | nil => exact absurd rfl hne
    | cons c cs =>
      have hcd : c.isDigit = true := by
        simp only [List.all_cons, Bool.and_eq_true] at hdig
        exact hdig.1
      have hc1 : ¬ c = '+' := fun hc => by subst hc; exact absurd hcd (by decide)
      have hc2 : ¬ c = '-' := fun hc => by subst hc; exact absurd hcd (by decide)
      have hnotlt : ¬ digitsVal (c :: cs) < 4294967296 := by omega
      simp [parseU32, hc1, hc2, hdig, hnotlt]
  · intro n hn
    cases ds with
    | nil => exact absurd hn (by simp [parseU32])
    | cons c cs =>
      simp only [parseU32] at hn
      split_ifs at hn <;> injection hn with h5 <;> omega
  · simp [parseU32]

/-! ## Helper lemmas about entry-name derivation -/

theorem isPrefixOf_self_append (p rest : RStr) : p.isPrefixOf (p ++ rest) = true := by
  induction p with
  | nil => simp
  | cons a as ih => simp [List.isPrefixOf, ih]

theorem isSuffixOf_append_self (s p : RStr) : p.isSuffixOf (s ++ p) = true := by
  simp only [List.isSuffixOf, List.reverse_append]
  exact isPrefixOf_self_append _ _

theorem hsdot_not_pre_append_dash (br t : RStr)
    (h : List.isPrefixOf ['h', 's', '.'] br = false) :
    List.isPrefixOf ['h', 's', '.'] (br ++ '-' :: t) = false := by
  rcases br with _ | ⟨c1, _ | ⟨c2, _ | ⟨c3, rest⟩⟩⟩
  · rw [List.nil_append, List.isPrefixOf_cons₂,
      show (('h' : Char) == '-') = false from rfl, Bool.false_and]
  · rw [List.cons_append, List.nil_append, List.isPrefixOf_cons₂,
      List.isPrefixOf_cons₂, show (('s' : Char) == '-') = false from rfl,
      Bool.false_and, Bool.and_false]
  · rw [List.cons_append, List.cons_append, List.nil_append,
      List.isPrefixOf_cons₂, List.isPrefixOf_cons₂, List.isPrefixOf_cons₂,
      show (('.' : Char) == '-') = false from rfl, Bool.false_and,
      Bool.and_false, Bool.and_false]
  · simp only [List.cons_append, List.isPrefixOf_cons₂,
      List.isPrefixOf_nil_left, Bool.and_true] at h ⊢
    exact h

theorem sh_not_suffixOf_ws_append (base : RStr)
    (h : (".sh".data.isSuffixOf base) = false) :
    (".sh".data.isSuffixOf ("workspace-".data ++ base)) = false := by
  simp only [List.isSuffixOf] at h ⊢
  rw [List.reverse_append]
  rw [show ".sh".data.reverse = ['h', 's', '.'] from rfl] at h ⊢
  rw [show "workspace-".data.reverse = '-' :: "ecapskrow".data from rfl]
  exact hsdot_not_pre_append_dash base.reverse "ecapskrow".data h

theorem trimEndFuel_sh_append (f : Nat) (s : RStr)
    (h : (".sh".data.isSuffixOf s) = false) :
    trimEndFuel ".sh".data (f + 1) (s ++ ".sh".data) = s := by
  have hsuf : (".sh".data.isSuffixOf (s ++ ".sh".data)) = true :=
    isSuffixOf_append_self _ _
  simp only [trimEndFuel]
  rw [if_pos ⟨hsuf, by decide⟩]
  have hl : (s ++ ".sh".data).length - ".sh".data.length = s.length := by
    simp [List.length_append]
  rw [hl, List.take_left]
  cases f with
  | zero => rfl
  | succ f2 =>
    simp only [trimEndFuel]
    rw [if_neg (by simp [h])]

theorem trim_end_matches_sh_append (s : RStr)
    (h : (".sh".data.isSuffixOf s) = false) :
    trim_end_matches ".sh".data (s ++ ".sh".data) = s := by
  rw [trim_end_matches]
  have hlen : (s ++ ".sh".data).length = s.length + 2 + 1 := by
    simp [List.length_append]
  rw [hlen]
  exact trimEndFuel_sh_append (s.length + 2) s h

/-! ## Claim theorems: entry short names -/

/-- C7 counterexample: the code removes every trailing repetition of `.sh`
(`trim_end_matches`), so `workspace-a.sh.sh` yields short name `a`, not the
`a.sh` required by the claim's single-suffix removal. -/
theorem c7_counterexample :
    shortName "workspace-a.sh.sh".data = "a".data ∧
    shortName "workspace-a.sh.sh".data ≠ "a.sh".data :=
  ⟨rfl, by decide⟩

/-- C7 amended: for a qualifying filename, short_name is the filename with
ALL trailing repetitions of `.sh` removed and then the `workspace-` prefix
removed; when the stem does not itself end in `.sh` exactly one suffix is
removed, and `workspace-a.sh.sh` yields `a`. -/
theorem c7_amended_strip_all_sh (base : RStr)
    (h : (".sh".data.isSuffixOf base) = false) :
    qualifies ("workspace-".data ++ base ++ ".sh".data) = true ∧
    shortName ("workspace-".data ++ base ++ ".sh".data) = base ∧
    shortName "workspace-a.sh.sh".data = "a".data := by
  refine ⟨?_, ?_, rfl⟩
  · have h1 : "workspace-".data.isPrefixOf
        ("workspace-".data ++ base ++ ".sh".data) = true := by
      rw [List.append_assoc]
      exact isPrefixOf_self_append _ _
    have h2 : ".sh".data.isSuffixOf
        ("workspace-".data ++ base ++ ".sh".data) = true :=
      isSuffixOf_append_self _ _
    unfold qualifies
    rw [h1, h2]
    rfl
  · have hne : (".sh".data.isSuffixOf ("workspace-".data ++ base)) = false :=
      sh_not_suffixOf_ws_append base h
    rw [shortName, trim_end_matches_sh_append _ hne, stripPre,
      if_pos (isPrefixOf_self_append _ _)]
    exact List.drop_left _ _

/-- C7 witness: `workspace-backend.sh` qualifies and yields `backend`. -/
theorem c7_amended_strip_all_sh_witness :
    qualifies "workspace-backend.sh".data = true ∧
    shortName "workspace-backend.sh".data = "backend".data :=
  ⟨(c7_amended_strip_all_sh "backend".data rfl).1,
   (c7_amended_strip_all_sh "backend".data rfl).2.1⟩

/-- C10 witness: `4294967296` (one above `u32::MAX`) fails to parse, `-1`
fails to parse, a successful parse is in range, and the scan passes over an
overflowing directive line to a later parseable one. -/
theorem c10_u32_bounds_witness :
    parseU32 "4294967296".data = none ∧
    parseU32 ('-' :: "1".data) = none ∧
    (5 : Nat) < 4294967296 ∧
    scan ["hyprctl dispatch workspace 4294967296".data,
      "hyprctl dispatch workspace 5".data] = some 5 :=
  ⟨(c10_u32_bounds "4294967296".data [] []).1 (by decide) rfl (by decide),
   (c10_u32_bounds "1".data [] []).2.2.1,
   (c10_u32_bounds "5".data [] []).2.1 5 rfl,
   ((c10_u32_bounds "4294967296".data "hyprctl dispatch workspace 4294967296".data
      ["hyprctl dispatch workspace 5".data]).2.2.2.1 rfl rfl).trans rfl⟩

end Hyprspace
